import Mathlib

/-!
Verification of the agent command-execution core (Go package `agent`,
file containing `CommandExecutor`).  The Go code is shallowly embedded:
pure helpers become Lean functions, the executor's mutable fields become
an explicit `CommandExecutor` state record threaded through
`ExecuteCommand`, and the interaction with the operating system (running
the child process) is an explicit `RunOutcome` argument describing what
the OS did.  Machine integers are modelled as `Int`/`Nat` (no overflow is
relevant at the sizes involved); Go `nil` slices and maps are modelled
with `Option`.
-/

/-- Go `strings.Contains s pat`: `pat` occurs as a contiguous substring of `s`. -/
def strContains (s pat : String) : Bool :=
  decide (pat.toList <:+: s.toList)

/-- Go `strings.HasPrefix s pre`. -/
def strStartsWith (s pre : String) : Bool :=
  pre.toList.isPrefixOf s.toList

/-- Go `strings.ContainsAny s "\n\r"`: `s` holds a CR or LF character. -/
def containsCRLF (s : String) : Bool :=
  s.toList.any (fun c => c == '\n' || c == '\r')

/-- The fixed injection patterns of `ValidateCommand`, in source order. -/
def injectionPatterns : List String :=
  [";", "|", "&", "$(", "`", "\n", "\r", "\t"]

/-- The fixed dangerous-command blacklist loaded by `loadConfig`
(the final entry is the fork bomb; its braces are escaped). -/
def defaultBlacklist : List String :=
  ["rm -rf", "mkfs", "dd ", "fdisk", "parted", "shutdown", "reboot",
   "halt", "poweroff", ":()\x7b:|:&\x7d;:"]

/-- The default whitelist installed by `loadConfig` when `COMMAND_WHITELIST`
is not set. -/
def defaultWhitelist : List String :=
  ["/usr/bin/curl", "/usr/bin/wget", "/bin/ps", "/usr/bin/systemctl",
   "/bin/hostname", "/usr/bin/uptime", "/bin/date", "/bin/whoami",
   "/usr/bin/docker", "/usr/local/bin/docker", "/bin/cat", "/usr/bin/head",
   "/usr/bin/tail", "/bin/ls", "/usr/bin/find", "/bin/echo", "/bin/pwd",
   "/bin/sleep", "/usr/bin/env"]

/-- The default allowed path list installed by `loadConfig` when
`ALLOWED_PATHS` is not set. -/
def defaultAllowedPaths : List String :=
  ["/usr/bin", "/bin", "/usr/local/bin", "/usr/sbin", "/sbin"]

/-- Go struct `CommandRequest`.  `env = none` models a `nil` map
(`req.Env != nil` in the source); timeouts are `int` seconds. -/
structure CommandRequest where
  command : String
  args : List String
  timeout : Int
  workdir : String
  env : Option (List (String × String))
deriving DecidableEq

/-- Go struct `CommandResponse`.  `duration` is the wall-clock duration
reported by the executor (Go converts to milliseconds; the unit is
abstract here). -/
structure CommandResponse where
  exitCode : Int
  stdout : String
  stderr : String
  error : String
  duration : Int
deriving DecidableEq

/-- Go struct `CommandHistoryEntry`; `timestamp` and `duration` are
abstract clock values. -/
structure CommandHistoryEntry where
  command : String
  args : List String
  timestamp : Int
  duration : Int
  exitCode : Int
  workdir : String
deriving DecidableEq

/-- The argv, timeout and working directory with which `cmd.Run` was
invoked; `ExecuteCommand` yields `some` of this exactly when it reaches
the OS process-creation primitive. -/
structure SpawnInfo where
  command : String
  args : List String
  timeoutSeconds : Int
  workdir : String
deriving DecidableEq

/-- The mutable state of Go struct `CommandExecutor`.
`whitelist = none` models a `nil` slice (the allow-all sentinel);
`rateLimitTracker` models the Go map with a missing key reading as the
empty list; `semaphoreAvail` is the number of free slots in
`concurrentSemaphore`. -/
structure CommandExecutor where
  whitelist : Option (List String)
  blacklist : List String
  allowedPaths : List String
  history : List CommandHistoryEntry
  rateLimitTracker : String → List Int
  semaphoreAvail : Nat
  maxOutputSize : Int
  maxConcurrent : Nat
  rateLimit : Nat
  rateLimitWindow : Int

/-- `NewCommandExecutor` with no configuration environment set: all the
`loadConfig` defaults (1 MiB output cap, 5 concurrent, 10 per minute;
the window is in nanoseconds as Go's `time.Minute`). -/
def NewCommandExecutor : CommandExecutor :=
  { whitelist := some defaultWhitelist
    blacklist := defaultBlacklist
    allowedPaths := defaultAllowedPaths
    history := []
    rateLimitTracker := fun _ => []
    semaphoreAvail := 5
    maxOutputSize := 1048576
    maxConcurrent := 5
    rateLimit := 10
    rateLimitWindow := 60000000000 }

/-- Go `path/filepath.IsAbs` on Unix: the path starts with a slash. -/
def filepathIsAbs (path : String) : Bool :=
  strStartsWith path "/"

/-- Go `path/filepath.Dir` on Unix: everything before the final path
element ("." when there is no slash, "/" at the root).  Go additionally
runs `Clean` on the result; the normalisation of repeated slashes and
dot segments is not modelled — no claim depends on it. -/
def filepathDir (path : String) : String :=
  let pre := (path.toList.reverse.dropWhile (fun c => !(c == '/'))).reverse
  match pre with
  | [] => "."
  | ['/'] => "/"
  | l => String.mk l.dropLast

/-- `CommandExecutor.ValidateCommand`: returns `some msg` when the Go
method returns the error with message `msg`, `none` on success.
The checks run in source order: blacklist scan, injection scan,
allowed-path check for absolute paths, then whitelist check. -/
def ValidateCommand (ce : CommandExecutor) (command : String) : Option String :=
  match ce.blacklist.find? (fun dangerous => strContains command dangerous) with
  | some dangerous => some ("command contains dangerous pattern: " ++ dangerous)
  | none =>
    match injectionPatterns.find? (fun pat => strContains command pat) with
    | some pat => some ("command contains injection pattern: " ++ pat)
    | none =>
      let pathFail :=
        if filepathIsAbs command then
          let commandDir := filepathDir command
          if ce.allowedPaths.any (fun p => strStartsWith commandDir p) then
            none
          else
            some ("command path not in allowed paths: " ++ commandDir)
        else
          none
      match pathFail with
      | some msg => some msg
      | none =>
        match ce.whitelist with
        | none => none
        | some wl =>
          if wl.any (fun allowedCmd =>
              command == allowedCmd || strStartsWith command (allowedCmd ++ " ")) then
            none
          else
            some ("command not in whitelist: " ++ command)

/-- The message of the Go error
`fmt.Errorf("rate limit exceeded: %d commands per %v", ...)`; Go renders
the window as a `time.Duration` string, modelled numerically here. -/
def rateLimitMessage (n : Nat) (w : Int) : String :=
  "rate limit exceeded: " ++ toString n ++ " commands per " ++ toString w

/-- `CommandExecutor.checkRateLimit`: prune the key's timestamps to the
window, reject if at least `rateLimit` remain, otherwise record `now`.
On rejection the tracker is left as it was (the Go method returns before
writing the pruned slice back). -/
def checkRateLimit (ce : CommandExecutor) (key : String) (now : Int) :
    Option String × CommandExecutor :=
  let timestamps := ce.rateLimitTracker key
  let validTimestamps := timestamps.filter (fun ts => decide (now - ts < ce.rateLimitWindow))
  if ce.rateLimit ≤ validTimestamps.length then
    (some (rateLimitMessage ce.rateLimit ce.rateLimitWindow), ce)
  else
    (none,
     { ce with rateLimitTracker :=
        fun k => if k = key then validTimestamps ++ [now] else ce.rateLimitTracker k })

/-- `CommandExecutor.addToHistory`: append, then keep only the last 100
entries. -/
def addToHistory (history : List CommandHistoryEntry) (entry : CommandHistoryEntry) :
    List CommandHistoryEntry :=
  let h := history ++ [entry]
  if 100 < h.length then h.drop (h.length - 100) else h

/-- `CommandExecutor.GetHistory`: a `limit` that is non-positive or
larger than the stored size is replaced by the size; the most recent
`limit` entries are returned in stored order. -/
def GetHistory (history : List CommandHistoryEntry) (limit : Int) :
    List CommandHistoryEntry :=
  let limit' := if limit ≤ 0 ∨ (history.length : Int) < limit then (history.length : Int) else limit
  history.drop (history.length - limit'.toNat)

/-- Go struct `limitedWriter`; the captured bytes (`bytes.Buffer`) are a
`List Char`. -/
structure limitedWriter where
  writer : List Char
  maxSize : Int
  bytesLeft : Int
deriving DecidableEq

/-- `limitedWriter.Write`: claims to consume all of `p`, but stores only
up to `bytesLeft` bytes, silently dropping the rest. -/
def lwWrite (lw : limitedWriter) (p : List Char) : limitedWriter × Nat :=
  if lw.bytesLeft ≤ 0 then
    (lw, p.length)
  else if lw.bytesLeft < (p.length : Int) then
    ({ lw with writer := lw.writer ++ p.take lw.bytesLeft.toNat, bytesLeft := 0 },
     lw.bytesLeft.toNat)
  else
    ({ lw with writer := lw.writer ++ p, bytesLeft := lw.bytesLeft - p.length },
     p.length)

/-- A fresh bounded sink as built in `ExecuteCommand`
(`maxSize = bytesLeft = maxOutputSize`, empty buffer). -/
def lwInit (m : Int) : limitedWriter :=
  { writer := [], maxSize := m, bytesLeft := m }

/-- A sequence of `Write` calls against one sink. -/
def writeAll (lw : limitedWriter) : List (List Char) → limitedWriter
  | [] => lw
  | p :: ps => writeAll (lwWrite lw p).1 ps

/-- The result of the one `cmd.Run()` call, as the Go code discriminates
it: `err == nil`; an `*exec.ExitError` (with the exit code, the error
string, and whether the command context's deadline had expired); a
non-`ExitError` error satisfying `os.IsNotExist`; any other error. -/
inductive RunResult where
  | success : RunResult
  | exitError (code : Int) (msg : String) (deadlineExceeded : Bool) : RunResult
  | notFound : RunResult
  | otherError (msg : String) : RunResult
deriving DecidableEq

/-- What the operating system did for one spawned child: the `cmd.Run`
outcome, the byte chunks the child wrote to each stream, and the wall
clock duration. -/
structure RunOutcome where
  result : RunResult
  stdoutChunks : List (List Char)
  stderrChunks : List (List Char)
  duration : Int
deriving DecidableEq

/-- The Go check `strings.ContainsAny(k, "\n\r") || strings.ContainsAny(v, "\n\r")`
over the request's environment map (`none` models a `nil` map, which is
not iterated). -/
def envInvalid : Option (List (String × String)) → Bool
  | none => false
  | some l => l.any (fun kv => containsCRLF kv.1 || containsCRLF kv.2)

/-- One call of `CommandExecutor.ExecuteCommand`. -/
structure ExecOutcome where
  response : CommandResponse
  executor : CommandExecutor
  spawned : Option SpawnInfo

/-- `CommandExecutor.ExecuteCommand`: clamp the timeout, validate, rate
limit, take a semaphore slot non-blockingly, validate the environment,
then run the child and record history.  `now` is the start time,
`run` describes what the OS did for the spawned child (consulted only
when a spawn happens), and `spawned` reports whether `cmd.Run` was
reached.  The semaphore slot taken on entry to the execution phase is
returned by a deferred send, so `semaphoreAvail` is unchanged in the
final state. -/
def ExecuteCommand (ce : CommandExecutor) (req : CommandRequest) (clientKey : String)
    (now : Int) (run : RunOutcome) : ExecOutcome :=
  let timeout0 : Int := if req.timeout ≤ 0 then 30 else req.timeout
  let timeout : Int := if 300 < timeout0 then 300 else timeout0
  match ValidateCommand ce req.command with
  | some msg =>
    { response := { exitCode := -1, stdout := "", stderr := "",
                    error := "command validation failed: " ++ msg, duration := 0 }
      executor := ce
      spawned := none }
  | none =>
    let rl := checkRateLimit ce clientKey now
    match rl.1 with
    | some msg =>
      { response := { exitCode := -1, stdout := "", stderr := "",
                      error := msg, duration := 0 }
        executor := rl.2
        spawned := none }
    | none =>
      let ce1 := rl.2
      if ce1.semaphoreAvail = 0 then
        { response := { exitCode := -1, stdout := "", stderr := "",
                        error := "maximum concurrent command execution limit reached",
                        duration := 0 }
          executor := ce1
          spawned := none }
      else
        if envInvalid req.env then
          { response := { exitCode := -1, stdout := "", stderr := "",
                          error := "environment variable contains invalid characters",
                          duration := 0 }
            executor := ce1
            spawned := none }
        else
          let stdoutBuf := (writeAll (lwInit ce1.maxOutputSize) run.stdoutChunks).writer
          let stderrBuf := (writeAll (lwInit ce1.maxOutputSize) run.stderrChunks).writer
          let code_err : Int × String :=
            match run.result with
            | RunResult.success => (0, "")
            | RunResult.exitError code msg deadlineExceeded =>
              if deadlineExceeded then (-2, "command execution timed out") else (code, msg)
            | RunResult.notFound => (127, "command not found")
            | RunResult.otherError msg => (-1, msg)
          let response : CommandResponse :=
            { exitCode := code_err.1, stdout := String.mk stdoutBuf,
              stderr := String.mk stderrBuf, error := code_err.2,
              duration := run.duration }
          let entry : CommandHistoryEntry :=
            { command := req.command, args := req.args, timestamp := now,
              duration := run.duration, exitCode := code_err.1, workdir := req.workdir }
          { response := response
            executor := { ce1 with history := addToHistory ce1.history entry }
            spawned := some { command := req.command, args := req.args,
                              timeoutSeconds := timeout, workdir := req.workdir } }

/-- A back-to-back burst of rate-limit checks for one key, returning the
pass/reject verdicts in order together with the final state. -/
def processBurst (ce : CommandExecutor) (key : String) :
    List Int → List Bool × CommandExecutor
  | [] => ([], ce)
  | t :: ts =>
    let step := checkRateLimit ce key t
    let rest := processBurst step.2 key ts
    (step.1.isNone :: rest.1, rest.2)

/-- An OS outcome used for concrete evaluations: clean exit, no output. -/
def runOk : RunOutcome :=
  { result := RunResult.success, stdoutChunks := [], stderrChunks := [], duration := 0 }

/-- An OS outcome reporting a missing executable (`cmd.Run` returned a
non-`ExitError` error satisfying `os.IsNotExist`). -/
def runNotFound : RunOutcome :=
  { result := RunResult.notFound, stdoutChunks := [], stderrChunks := [], duration := 0 }

/-- A request for a whitelisted command, used for concrete evaluations. -/
def reqEcho : CommandRequest :=
  { command := "/bin/echo", args := ["hi"], timeout := 0, workdir := "", env := none }

/-- A concrete history entry for evaluations. -/
def sampleEntry : CommandHistoryEntry :=
  { command := "/bin/echo", args := [], timestamp := 0, duration := 0,
    exitCode := 0, workdir := "" }

/-- A second, distinct concrete history entry. -/
def sampleEntry2 : CommandHistoryEntry :=
  { sampleEntry with command := "/bin/ls", timestamp := 1 }

/-! ### Helper lemmas -/

lemma take_min_length (l : List Char) (n : Nat) :
    l.take (min l.length n) = l.take n := by
  rcases Nat.le_total l.length n with h | h
  · rw [min_eq_left h, List.take_of_length_le h, List.take_of_length_le (Nat.le_refl _)]
  · rw [min_eq_right h]

lemma lwWrite_fst (m : Int) (hm : 0 ≤ m) (js p : List Char) :
    (lwWrite { writer := js.take m.toNat, maxSize := m,
               bytesLeft := m - (min js.length m.toNat : Nat) } p).1
      = { writer := (js ++ p).take m.toNat, maxSize := m,
          bytesLeft := m - (min (js ++ p).length m.toNat : Nat) } := by
  have hmn : ((m.toNat : Int)) = m := Int.toNat_of_nonneg hm
  simp only [lwWrite, List.length_append]
  split
  · next h1 =>
    have hj : m.toNat ≤ js.length := by omega
    have h2 : min (js.length + p.length) m.toNat = min js.length m.toNat := by omega
    rw [List.take_append_of_le_length hj, h2]
  · next h1 =>
    have hj : js.length < m.toNat := by omega
    have hminj : min js.length m.toNat = js.length := by omega
    split
    · next h2 =>
      have h3 : min (js.length + p.length) m.toNat = m.toNat := by omega
      have h4 : (m - (min js.length m.toNat : Nat)).toNat = m.toNat - js.length := by omega
      have h5 : (js ++ p).take m.toNat = js.take m.toNat ++ p.take (m.toNat - js.length) :=
        List.take_append_eq_append_take
      rw [h3, h4, h5, List.take_of_length_le (Nat.le_of_lt hj)]
      simp only [limitedWriter.mk.injEq, true_and]
      omega
    · next h2 =>
      have hlen : js.length + p.length ≤ m.toNat := by omega
      have h3 : min (js.length + p.length) m.toNat = js.length + p.length := by omega
      have e1 : js.take m.toNat = js := List.take_of_length_le (Nat.le_of_lt hj)
      have e2 : (js ++ p).take m.toNat = js ++ p :=
        List.take_of_length_le (by simpa using hlen)
      rw [h3, e1, e2]
      simp only [limitedWriter.mk.injEq, true_and]
      omega

lemma writeAll_inv (m : Int) (hm : 0 ≤ m) :
    ∀ (chunks : List (List Char)) (js : List Char),
      writeAll { writer := js.take m.toNat, maxSize := m,
                 bytesLeft := m - (min js.length m.toNat : Nat) } chunks
        = { writer := (js ++ chunks.flatten).take m.toNat, maxSize := m,
            bytesLeft := m - (min (js ++ chunks.flatten).length m.toNat : Nat) } := by
  intro chunks
  induction chunks with
  | nil => intro js; simp [writeAll]
  | cons p ps ih =>
    intro js
    rw [writeAll, lwWrite_fst m hm js p, ih (js ++ p)]
    simp [List.append_assoc]

lemma writeAll_capture (m : Int) (hm : 0 ≤ m) (chunks : List (List Char)) :
    writeAll (lwInit m) chunks
      = { writer := chunks.flatten.take m.toNat, maxSize := m,
          bytesLeft := m - (min chunks.flatten.length m.toNat : Nat) } := by
  have h := writeAll_inv m hm chunks []
  simpa [lwInit] using h

lemma checkRateLimit_snd_fields (ce : CommandExecutor) (key : String) (now : Int) :
    (checkRateLimit ce key now).2.history = ce.history ∧
    (checkRateLimit ce key now).2.semaphoreAvail = ce.semaphoreAvail ∧
    (checkRateLimit ce key now).2.maxOutputSize = ce.maxOutputSize := by
  unfold checkRateLimit
  dsimp only
  split <;> exact ⟨rfl, rfl, rfl⟩

lemma checkRateLimit_all_valid (ce : CommandExecutor) (key : String) (now : Int)
    (h : ∀ s ∈ ce.rateLimitTracker key, now - s < ce.rateLimitWindow) :
    checkRateLimit ce key now =
      if ce.rateLimit ≤ (ce.rateLimitTracker key).length then
        (some (rateLimitMessage ce.rateLimit ce.rateLimitWindow), ce)
      else
        (none,
         { ce with rateLimitTracker :=
            fun k => if k = key then ce.rateLimitTracker key ++ [now]
                     else ce.rateLimitTracker k }) := by
  have hf : (ce.rateLimitTracker key).filter
      (fun ts => decide (now - ts < ce.rateLimitWindow)) = ce.rateLimitTracker key :=
    List.filter_eq_self.mpr (fun a ha => decide_eq_true (h a ha))
  simp only [checkRateLimit]
  rw [hf]

lemma addToHistory_length (h : List CommandHistoryEntry) (e : CommandHistoryEntry) :
    (addToHistory h e).length = min (h.length + 1) 100 := by
  simp only [addToHistory]
  split
  · next hc => simp at hc ⊢; omega
  · next hc => simp at hc ⊢; omega

lemma processBurst_aux (key : String) :
    ∀ (times : List Int) (ce : CommandExecutor),
      (∀ s ∈ ce.rateLimitTracker key, ∀ t ∈ times, t - s < ce.rateLimitWindow) →
      List.Pairwise (fun a b => b - a < ce.rateLimitWindow) times →
      (processBurst ce key times).1 =
        List.replicate (min times.length (ce.rateLimit - (ce.rateLimitTracker key).length)) true
          ++ List.replicate (times.length - (ce.rateLimit - (ce.rateLimitTracker key).length)) false := by
  intro times
  induction times with
  | nil => intro ce _ _; simp [processBurst]
  | cons t ts ih =>
    intro ce h1 h2
    obtain ⟨hhead, htail⟩ := List.pairwise_cons.mp h2
    have hall : ∀ s ∈ ce.rateLimitTracker key, t - s < ce.rateLimitWindow :=
      fun s hs => h1 s hs t (List.mem_cons_self t ts)
    have hcrl := checkRateLimit_all_valid ce key t hall
    simp only [processBurst, hcrl]
    by_cases hc : ce.rateLimit ≤ (ce.rateLimitTracker key).length
    · rw [if_pos hc]
      have h1' : ∀ s ∈ ce.rateLimitTracker key, ∀ u ∈ ts, u - s < ce.rateLimitWindow :=
        fun s hs u hu => h1 s hs u (List.mem_cons_of_mem t hu)
      have hih := ih ce h1' htail
      have hz : ce.rateLimit - (ce.rateLimitTracker key).length = 0 := by omega
      simp [hih, hz, List.replicate_succ]
    · rw [if_neg hc]
      have h1'' : ∀ s ∈ (({ ce with rateLimitTracker :=
            fun k => if k = key then ce.rateLimitTracker key ++ [t]
                     else ce.rateLimitTracker k } : CommandExecutor).rateLimitTracker key),
          ∀ u ∈ ts, u - s <
            ({ ce with rateLimitTracker :=
                fun k => if k = key then ce.rateLimitTracker key ++ [t]
                         else ce.rateLimitTracker k } : CommandExecutor).rateLimitWindow := by
        intro s hs u hu
        simp only [if_pos rfl] at hs
        rcases List.mem_append.mp hs with hs' | hs'
        · exact h1 s hs' u (List.mem_cons_of_mem t hu)
        · have hst : s = t := by simpa using hs'
          subst hst
          exact hhead u hu
      have hih := ih _ h1'' htail
      simp only [if_pos rfl, eq_self_iff_true, if_true, List.length_append,
        List.length_singleton] at hih
      rw [hih]
      have e1 : min (ts.length + 1) (ce.rateLimit - (ce.rateLimitTracker key).length) =
          min ts.length (ce.rateLimit - ((ce.rateLimitTracker key).length + 1)) + 1 := by omega
      have e2 : (ts.length + 1) - (ce.rateLimit - (ce.rateLimitTracker key).length) =
          ts.length - (ce.rateLimit - ((ce.rateLimitTracker key).length + 1)) := by omega
      simp only [Option.isNone_none, List.length_cons, e1, e2, List.replicate_succ,
        List.cons_append]

/-! ### Claim theorems -/

/-- C1: a `CommandRequest` whose command fails validation (blacklist
substring, injection character, disallowed absolute-path directory, or
whitelist miss) yields a response with exit code `-1` and an error
beginning with "command validation failed: " (here: equal to that text
followed by the validation message), and the OS process-creation
primitive is never invoked for that request. -/
theorem execute_validation_failure_rejects
    (ce : CommandExecutor) (req : CommandRequest) (key : String) (now : Int)
    (run : RunOutcome) (msg : String)
    (h : ValidateCommand ce req.command = some msg) :
    (ExecuteCommand ce req key now run).response =
      { exitCode := -1, stdout := "", stderr := "",
        error := "command validation failed: " ++ msg, duration := 0 } ∧
    (ExecuteCommand ce req key now run).spawned = none := by
  simp [ExecuteCommand, h]

theorem execute_validation_failure_rejects_witness :
    (ExecuteCommand NewCommandExecutor
        { command := "mkfs", args := [], timeout := 0, workdir := "", env := none }
        "default" 0 runOk).response =
      { exitCode := -1, stdout := "", stderr := "",
        error := "command validation failed: command contains dangerous pattern: mkfs",
        duration := 0 } ∧
    (ExecuteCommand NewCommandExecutor
        { command := "mkfs", args := [], timeout := 0, workdir := "", env := none }
        "default" 0 runOk).spawned = none :=
  execute_validation_failure_rejects NewCommandExecutor
    { command := "mkfs", args := [], timeout := 0, workdir := "", env := none }
    "default" 0 runOk "command contains dangerous pattern: mkfs" (by decide)

/-- C3: the rate limiter prunes timestamps older than the window,
rejects when at least `rateLimit` remain, and otherwise appends the
current time; consequently a burst of `2N` same-key requests inside one
window (starting from an idle key) passes exactly the first `N` and
rejects the remaining `N`. -/
theorem rate_limiter_spec :
    (∀ (ce : CommandExecutor) (key : String) (now : Int),
      ((checkRateLimit ce key now).1 = none ↔
        ((ce.rateLimitTracker key).filter
          (fun ts => decide (now - ts < ce.rateLimitWindow))).length < ce.rateLimit) ∧
      (((ce.rateLimitTracker key).filter
          (fun ts => decide (now - ts < ce.rateLimitWindow))).length < ce.rateLimit →
        (checkRateLimit ce key now).2.rateLimitTracker key =
          (ce.rateLimitTracker key).filter
            (fun ts => decide (now - ts < ce.rateLimitWindow)) ++ [now])) ∧
    (∀ (ce : CommandExecutor) (key : String) (N : Nat) (times : List Int),
      ce.rateLimit = N →
      ce.rateLimitTracker key = [] →
      times.length = 2 * N →
      List.Pairwise (fun a b => b - a < ce.rateLimitWindow) times →
      (processBurst ce key times).1 =
        List.replicate N true ++ List.replicate N false) := by
  constructor
  · intro ce key now
    constructor
    · by_cases hc : ce.rateLimit ≤ ((ce.rateLimitTracker key).filter
          (fun ts => decide (now - ts < ce.rateLimitWindow))).length
      · simp only [checkRateLimit]
        rw [if_pos hc]
        simp
        omega
      · simp only [checkRateLimit]
        rw [if_neg hc]
        simp
        omega
    · intro hlt
      have hc : ¬ ce.rateLimit ≤ ((ce.rateLimitTracker key).filter
          (fun ts => decide (now - ts < ce.rateLimitWindow))).length := by omega
      simp only [checkRateLimit]
      rw [if_neg hc]
      simp
  · intro ce key N times hN htr hlen hpw
    have h := processBurst_aux key times ce
      (by intro s hs; rw [htr] at hs; cases hs) hpw
    rw [htr] at h
    simp only [List.length_nil, Nat.sub_zero] at h
    rw [h, hlen, hN]
    have e1 : min (2 * N) N = N := by omega
    have e2 : 2 * N - N = N := by omega
    rw [e1, e2]

theorem rate_limiter_spec_witness :
    (processBurst { NewCommandExecutor with rateLimit := 2 } "k" [0, 1, 2, 3]).1 =
      List.replicate 2 true ++ List.replicate 2 false :=
  rate_limiter_spec.2 { NewCommandExecutor with rateLimit := 2 } "k" 2 [0, 1, 2, 3]
    rfl rfl rfl (by decide)

/-- C6 counterexample: with one stored entry and `limit = 0`,
`GetHistory` returns the whole history (one entry), not
`min(limit, size) = 0` entries, so the claim fails for non-positive
integer limits. -/
theorem get_history_zero_limit_cex :
    GetHistory [sampleEntry] 0 = [sampleEntry] ∧ GetHistory [sampleEntry] 0 ≠ [] := by
  decide

/-- C6 amended: for every positive `limit`, `GetHistory` returns the
most recent `min(limit, size)` entries in chronological (stored) order;
for `limit ≤ 0` it returns all `size` entries. -/
theorem get_history_most_recent (h : List CommandHistoryEntry) (limit : Int) :
    (1 ≤ limit →
      GetHistory h limit = h.drop (h.length - min limit.toNat h.length) ∧
      (GetHistory h limit).length = min limit.toNat h.length) ∧
    (limit ≤ 0 → GetHistory h limit = h) := by
  unfold GetHistory
  constructor
  · intro hl
    split_ifs with hcond
    · have hlt : (h.length : Int) < limit := by
        rcases hcond with hc | hc
        · omega
        · exact hc
      have e : min limit.toNat h.length = h.length := by omega
      rw [e]
      constructor
      · simp
      · simp
    · push_neg at hcond
      have e : min limit.toNat h.length = limit.toNat := by omega
      rw [e]
      refine ⟨rfl, ?_⟩
      rw [List.length_drop]
      omega
  · intro hl
    split_ifs with hcond
    · simp
    · exact absurd (Or.inl hl) hcond

theorem get_history_most_recent_witness :
    GetHistory [sampleEntry, sampleEntry2] 1 = [sampleEntry2] := by
  have h := (get_history_most_recent [sampleEntry, sampleEntry2] 1).1 (by decide)
  rw [h.1]
  decide

set_option maxRecDepth 4000 in
/-- C7 counterexample: for the request `{command: "/bin/ls; rm -rf /"}`
the blacklist scan fires before the injection scan, so the error does
not contain "injection pattern" (it reports the dangerous pattern
"rm -rf" instead); the exit code is `-1` as stated. -/
theorem injection_scenario_cex :
    (ExecuteCommand NewCommandExecutor
        { command := "/bin/ls; rm -rf /", args := [], timeout := 0,
          workdir := "", env := none } "default" 0 runOk).response.exitCode = -1 ∧
    strContains (ExecuteCommand NewCommandExecutor
        { command := "/bin/ls; rm -rf /", args := [], timeout := 0,
          workdir := "", env := none } "default" 0 runOk).response.error
      "injection pattern" = false := by
  decide

set_option maxRecDepth 4000 in
/-- C7 amended: for the request `{command: "/bin/ls; rm -rf /"}`,
`ExecuteCommand` returns exit code `-1` with an error containing
"dangerous pattern" (the blacklist substring "rm -rf" matches before the
injection scan runs). -/
theorem injection_scenario_amended :
    (ExecuteCommand NewCommandExecutor
        { command := "/bin/ls; rm -rf /", args := [], timeout := 0,
          workdir := "", env := none } "default" 0 runOk).response.exitCode = -1 ∧
    (ExecuteCommand NewCommandExecutor
        { command := "/bin/ls; rm -rf /", args := [], timeout := 0,
          workdir := "", env := none } "default" 0 runOk).response.error =
      "command validation failed: command contains dangerous pattern: rm -rf" ∧
    strContains (ExecuteCommand NewCommandExecutor
        { command := "/bin/ls; rm -rf /", args := [], timeout := 0,
          workdir := "", env := none } "default" 0 runOk).response.error
      "dangerous pattern" = true := by
  decide

/-- C5: the timeout actually applied to the child process is 30 s when
the requested timeout is zero or negative, 300 s when the request
exceeds 300, the requested value otherwise, and always lies in
`[1, 300]`. -/
theorem timeout_clamped (ce : CommandExecutor) (req : CommandRequest) (key : String)
    (now : Int) (run : RunOutcome) (si : SpawnInfo)
    (h : (ExecuteCommand ce req key now run).spawned = some si) :
    (req.timeout ≤ 0 → si.timeoutSeconds = 30) ∧
    (300 < req.timeout → si.timeoutSeconds = 300) ∧
    (1 ≤ req.timeout → req.timeout ≤ 300 → si.timeoutSeconds = req.timeout) ∧
    1 ≤ si.timeoutSeconds ∧ si.timeoutSeconds ≤ 300 := by
  simp only [ExecuteCommand] at h
  split at h
  · simp at h
  · split at h
    · simp at h
    · split at h
      · simp at h
      · split at h
        · simp at h
        · have hsi := Option.some.inj h
          have ht := congrArg SpawnInfo.timeoutSeconds hsi
          dsimp only at ht
          rw [← ht]
          refine ⟨?_, ?_, ?_, ?_, ?_⟩ <;> intros <;> split_ifs <;> omega

set_option maxRecDepth 8000 in
theorem timeout_clamped_witness :
    ({ command := "/bin/echo", args := ["hi"], timeoutSeconds := 30,
       workdir := "" } : SpawnInfo).timeoutSeconds = 30 := by
  have h := timeout_clamped NewCommandExecutor reqEcho "default" 0 runOk
    { command := "/bin/echo", args := ["hi"], timeoutSeconds := 30, workdir := "" }
    (by decide)
  exact h.1 (by decide)

/-- C8: with the concurrency semaphore exhausted, a request that passed
validation and rate limiting is answered immediately with exit code `-1`
and the fixed error text, and no process is spawned. -/
theorem concurrency_cap_rejects (ce : CommandExecutor) (req : CommandRequest)
    (key : String) (now : Int) (run : RunOutcome)
    (hv : ValidateCommand ce req.command = none)
    (hr : (checkRateLimit ce key now).1 = none)
    (hs : ce.semaphoreAvail = 0) :
    (ExecuteCommand ce req key now run).response =
      { exitCode := -1, stdout := "", stderr := "",
        error := "maximum concurrent command execution limit reached", duration := 0 } ∧
    (ExecuteCommand ce req key now run).spawned = none := by
  have hs2 : (checkRateLimit ce key now).2.semaphoreAvail = 0 := by
    rw [(checkRateLimit_snd_fields ce key now).2.1, hs]
  simp [ExecuteCommand, hv, hr, hs2]

set_option maxRecDepth 8000 in
theorem concurrency_cap_rejects_witness :
    (ExecuteCommand { NewCommandExecutor with semaphoreAvail := 0 } reqEcho
        "default" 0 runOk).response =
      { exitCode := -1, stdout := "", stderr := "",
        error := "maximum concurrent command execution limit reached", duration := 0 } ∧
    (ExecuteCommand { NewCommandExecutor with semaphoreAvail := 0 } reqEcho
        "default" 0 runOk).spawned = none :=
  concurrency_cap_rejects { NewCommandExecutor with semaphoreAvail := 0 } reqEcho
    "default" 0 runOk (by decide) (by decide) rfl

/-- C9: when the spawned executable does not exist (`cmd.Run` yields a
non-`ExitError` error satisfying `os.IsNotExist`), the response carries
exit code 127 and the error "command not found". -/
theorem not_found_maps_127 (ce : CommandExecutor) (req : CommandRequest)
    (key : String) (now : Int) (run : RunOutcome)
    (hv : ValidateCommand ce req.command = none)
    (hr : (checkRateLimit ce key now).1 = none)
    (hs : ce.semaphoreAvail ≠ 0)
    (he : envInvalid req.env = false)
    (hn : run.result = RunResult.notFound) :
    (ExecuteCommand ce req key now run).response.exitCode = 127 ∧
    (ExecuteCommand ce req key now run).response.error = "command not found" := by
  have hs2 : (checkRateLimit ce key now).2.semaphoreAvail ≠ 0 := by
    rw [(checkRateLimit_snd_fields ce key now).2.1]; exact hs
  simp [ExecuteCommand, hv, hr, hs2, he, hn]

set_option maxRecDepth 8000 in
theorem not_found_maps_127_witness :
    (ExecuteCommand NewCommandExecutor reqEcho "default" 0 runNotFound).response.exitCode
        = 127 ∧
    (ExecuteCommand NewCommandExecutor reqEcho "default" 0 runNotFound).response.error
        = "command not found" :=
  not_found_maps_127 NewCommandExecutor reqEcho "default" 0 runNotFound
    (by decide) (by decide) (by decide) rfl rfl

/-- C10: validation never consults `allowedPaths` for a non-absolute
command, and with the allow-all whitelist sentinel (`nil`) every
non-absolute command free of blacklist substrings and injection
characters passes validation. -/
theorem non_absolute_skips_path_check :
    (∀ (ce : CommandExecutor) (paths : List String) (cmd : String),
      filepathIsAbs cmd = false →
      ValidateCommand { ce with allowedPaths := paths } cmd = ValidateCommand ce cmd) ∧
    (∀ (ce : CommandExecutor) (cmd : String),
      ce.whitelist = none →
      filepathIsAbs cmd = false →
      ce.blacklist.all (fun d => !(strContains cmd d)) = true →
      injectionPatterns.all (fun p => !(strContains cmd p)) = true →
      ValidateCommand ce cmd = none) := by
  constructor
  · intro ce paths cmd habs
    simp only [ValidateCommand, habs, Bool.false_eq_true, if_false]
  · intro ce cmd hwl habs hbl hinj
    have h1 : ce.blacklist.find? (fun d => strContains cmd d) = none := by
      rw [List.find?_eq_none]
      intro x hx
      have hh := List.all_eq_true.mp hbl x hx
      simp only [Bool.not_eq_true'] at hh
      simp [hh]
    have h2 : injectionPatterns.find? (fun p => strContains cmd p) = none := by
      rw [List.find?_eq_none]
      intro x hx
      have hh := List.all_eq_true.mp hinj x hx
      simp only [Bool.not_eq_true'] at hh
      simp [hh]
    simp only [ValidateCommand, h1, h2, habs, hwl, Bool.false_eq_true, if_false]

theorem non_absolute_skips_path_check_witness :
    ValidateCommand { NewCommandExecutor with whitelist := none } "ls" = none :=
  non_absolute_skips_path_check.2 { NewCommandExecutor with whitelist := none } "ls"
    rfl (by decide) (by decide) (by decide)

lemma String_length_mk (l : List Char) : (String.mk l).length = l.length := rfl

/-- C2: a bounded sink of capacity `m ≥ 0` captures exactly the first
`min(k, m)` bytes of any write sequence totalling `k` bytes, dropping
the rest; consequently the `stdout` and `stderr` of any
`CommandResponse` are bounded by `maxOutputSize` bytes. -/
theorem output_capture_bounded :
    (∀ (m : Int) (chunks : List (List Char)), 0 ≤ m →
      (writeAll (lwInit m) chunks).writer =
        chunks.flatten.take (min chunks.flatten.length m.toNat)) ∧
    (∀ (ce : CommandExecutor) (req : CommandRequest) (key : String) (now : Int)
        (run : RunOutcome), 0 ≤ ce.maxOutputSize →
      (ExecuteCommand ce req key now run).response.stdout.length ≤ ce.maxOutputSize.toNat ∧
      (ExecuteCommand ce req key now run).response.stderr.length ≤ ce.maxOutputSize.toNat) := by
  constructor
  · intro m chunks hm
    rw [writeAll_capture m hm chunks, take_min_length]
  · intro ce req key now run hm
    have hmo : (checkRateLimit ce key now).2.maxOutputSize = ce.maxOutputSize :=
      (checkRateLimit_snd_fields ce key now).2.2
    simp only [ExecuteCommand]
    split
    · exact ⟨Nat.zero_le _, Nat.zero_le _⟩
    · split
      · exact ⟨Nat.zero_le _, Nat.zero_le _⟩
      · split
        · exact ⟨Nat.zero_le _, Nat.zero_le _⟩
        · split
          · exact ⟨Nat.zero_le _, Nat.zero_le _⟩
          · constructor
            · show (String.mk (writeAll
                  (lwInit ((checkRateLimit ce key now).2.maxOutputSize))
                  run.stdoutChunks).writer).length ≤ ce.maxOutputSize.toNat
              rw [hmo, writeAll_capture ce.maxOutputSize hm, String_length_mk]
              simp only [List.length_take]
              omega
            · show (String.mk (writeAll
                  (lwInit ((checkRateLimit ce key now).2.maxOutputSize))
                  run.stderrChunks).writer).length ≤ ce.maxOutputSize.toNat
              rw [hmo, writeAll_capture ce.maxOutputSize hm, String_length_mk]
              simp only [List.length_take]
              omega

theorem output_capture_bounded_witness :
    (writeAll (lwInit 2) [['a', 'b', 'c']]).writer = ['a', 'b'] ∧
    (ExecuteCommand NewCommandExecutor reqEcho "default" 0 runOk).response.stdout.length
      ≤ 1048576 := by
  constructor
  · have h := output_capture_bounded.1 2 [['a', 'b', 'c']] (by decide)
    rw [h]
    decide
  · have h := (output_capture_bounded.2 NewCommandExecutor reqEcho "default" 0 runOk
      (by decide)).1
    simpa using h

/-- C4: `addToHistory` keeps the history at no more than 100 entries
(evicting the oldest beyond that), and `ExecuteCommand` appends exactly
one entry when and only when the attempt reached the execution stage
(timeouts included); attempts refused by validation, rate limiting, the
concurrency cap or environment validation leave the history unchanged. -/
theorem history_bounded_once :
    (∀ (h : List CommandHistoryEntry) (e : CommandHistoryEntry),
      (addToHistory h e).length = min (h.length + 1) 100) ∧
    (∀ (ce : CommandExecutor) (req : CommandRequest) (key : String) (now : Int)
        (run : RunOutcome),
      (ce.history.length ≤ 100 →
        (ExecuteCommand ce req key now run).executor.history.length ≤ 100) ∧
      ((ExecuteCommand ce req key now run).spawned = none →
        (ExecuteCommand ce req key now run).executor.history = ce.history) ∧
      ((ExecuteCommand ce req key now run).spawned ≠ none →
        ∃ e, (ExecuteCommand ce req key now run).executor.history =
          addToHistory ce.history e)) := by
  constructor
  · exact addToHistory_length
  · intro ce req key now run
    have hh : (checkRateLimit ce key now).2.history = ce.history :=
      (checkRateLimit_snd_fields ce key now).1
    simp only [ExecuteCommand]
    split
    · exact ⟨fun hb => hb, fun _ => rfl, fun hne => absurd rfl hne⟩
    · split
      · exact ⟨fun hb => by simpa [hh] using hb, fun _ => hh, fun hne => absurd rfl hne⟩
      · split
        · exact ⟨fun hb => by simpa [hh] using hb, fun _ => hh, fun hne => absurd rfl hne⟩
        · split
          · exact ⟨fun hb => by simpa [hh] using hb, fun _ => hh, fun hne => absurd rfl hne⟩
          · refine ⟨?_, ?_, ?_⟩
            · intro hb
              show (addToHistory (checkRateLimit ce key now).2.history _).length ≤ 100
              rw [hh, addToHistory_length]
              omega
            · intro hsp
              exact absurd hsp (by simp)
            · intro _
              dsimp only
              rw [hh]
              exact ⟨_, rfl⟩

set_option maxRecDepth 8000 in
theorem history_bounded_once_witness :
    (ExecuteCommand NewCommandExecutor reqEcho "default" 0 runOk).executor.history.length
      ≤ 100 :=
  (history_bounded_once.2 NewCommandExecutor reqEcho "default" 0 runOk).1 (by decide)
